import Mathlib

/-!
Verification of the BAM long-read assembly error detector (src/main.rs).

The program streams alignment records, accumulating per-contig coverage
arrays and clip-site counts, and then writes two reports: qualifying
clip sites and zero-coverage intervals.  Below, the mutable Rust state
is embedded as explicit state passing: the per-contig accumulator
dictionary is a function from contig name to an optional accumulator,
the sparse clip-site hash map is a function from position to count
(the abstract value of the map, independent of iteration order), and
machine integers are Nat.  Floating-point ratios are modelled by exact
rationals together with the IEEE special values that arise from
dividing a nonnegative count by zero.
-/

namespace Anvio

/-- Per-contig accumulator, from struct ContigData (main.rs lines 15-20):
a dense coverage counter array, a sparse clip-site map, and the contig
length. -/
structure ContigData where
  coverage : List Nat
  clipping : Nat → Nat
  length : Nat

/-- ContigData::new (main.rs lines 23-31): coverage is vec![0; length]. -/
def ContigData.new (length : Nat) : ContigData :=
  { coverage := List.replicate length 0, clipping := fun _ => 0, length := length }

/-- ContigData::add_clipping (main.rs lines 33-35):
*self.clipping.entry(pos).or_insert(0) += 1. -/
def ContigData.add_clipping (d : ContigData) (pos : Nat) : ContigData :=
  { d with clipping := Function.update d.clipping pos (d.clipping pos + 1) }

/-- A mapped-read record as consumed from the external alignment reader:
unmapped flag, reference contig name (tid2name of the record tid),
0-based leftmost position (read.pos()), and the CIGAR operation list as
(op.char(), op.len()) pairs. -/
structure ReadRec where
  is_unmapped : Bool
  contig : String
  pos : Nat
  cigar : List (Char × Nat)

/-- Match-like CIGAR codes, the first arm of the match in main.rs line 131. -/
def opIsMatch (c : Char) : Bool := c = 'M' || c = '=' || c = 'X'

/-- Clip CIGAR codes, the arm of the match in main.rs line 142. -/
def opIsClip (c : Char) : Bool := c = 'S' || c = 'H'

/-- The coverage-increment loop of main.rs lines 132-134:
for pos in current_pos..(current_pos + op.len()) do coverage[pos] += 1.
An out-of-range index panics in Rust; here List.set leaves the list
unchanged, and the checked variant below models the panic. -/
def addCoverageRange : List Nat → Nat → Nat → List Nat
  | cov, _, 0 => cov
  | cov, start, n + 1 =>
      addCoverageRange (cov.set start (cov.getD start 0 + 1)) (start + 1) n

/-- One iteration of the CIGAR loop of main.rs lines 126-154.  State is
(number of operations already consumed, current_pos, accumulator); the
Rust num_tup equals the first component plus one. -/
def walkStep (contig_end : Nat) (st : Nat × Nat × ContigData) (op : Char × Nat) :
    Nat × Nat × ContigData :=
  let num_tup := st.1 + 1
  let current_pos := st.2.1
  let d := st.2.2
  if opIsMatch op.1 then
    (num_tup, current_pos + op.2,
      { d with coverage := addCoverageRange d.coverage current_pos op.2 })
  else if op.1 = 'D' then
    (num_tup, current_pos + op.2, d)
  else if opIsClip op.1 then
    (if num_tup = 1 then
      (if current_pos ≠ 0 then (num_tup, current_pos, d.add_clipping current_pos)
       else (num_tup, current_pos, d))
     else if current_pos ≠ contig_end then
      (num_tup, current_pos, d.add_clipping (current_pos - 1))
     else (num_tup, current_pos, d))
  else (num_tup, current_pos, d)

/-- The full CIGAR walk of one read (main.rs lines 119-154), returning the
mutated accumulator. -/
def walkCigar (contig_end pos : Nat) (cigar : List (Char × Nat)) (d : ContigData) :
    ContigData :=
  (cigar.foldl (walkStep contig_end) (0, pos, d)).2.2

/-- Processing of one record from the stream (main.rs lines 99-155):
skip if unmapped, lazily create the accumulator from the registry
length, then walk the CIGAR.  The accumulator dictionary cov_dict is
a function from contig name to optional accumulator. -/
def processRead (contigsSize : String → Nat) (covDict : String → Option ContigData)
    (read : ReadRec) : String → Option ContigData :=
  if read.is_unmapped then covDict
  else
    let contig_end := contigsSize read.contig
    let data0 := match covDict read.contig with
      | some d => d
      | none => ContigData.new contig_end
    Function.update covDict read.contig
      (some (walkCigar contig_end read.pos read.cigar data0))

/-- The empty accumulator dictionary (main.rs line 92). -/
def emptyDict : String → Option ContigData := fun _ => none

/-- Folding the record stream through processRead (the loop of main.rs
lines 99-155). -/
def processReads (contigsSize : String → Nat) (covDict : String → Option ContigData)
    (reads : List ReadRec) : String → Option ContigData :=
  reads.foldl (processRead contigsSize) covDict

/-- The argument ids registered with the command-line parser (main.rs
lines 40-58). -/
def recognizedArgIds : List String :=
  ["bam_file", "output_prefix", "min_dist_to_end", "clipping_ratio"]

/-- The let binding of main.rs line 64. -/
def just_do_it : Bool := true

/-- The startup confirmation gate of main.rs lines 66-72: it returns an
error exactly when the confirmation is judged absent. -/
def runGate : Except String Unit :=
  if !just_do_it then Except.error "Missing --just-do-it flag" else Except.ok ()

/-- The value of an IEEE double obtained by dividing one nonnegative
integer by another in main.rs line 170.  A finite quotient is carried
as an exact rational (the spec reads the division as real-valued);
division by zero yields NaN or positive infinity as in IEEE 754. -/
inductive F64Val where
  | nan : F64Val
  | posInf : F64Val
  | fin : ℚ → F64Val
deriving DecidableEq

/-- clipping as f64 / cov as f64 (main.rs line 170). -/
def f64Div (a b : Nat) : F64Val :=
  if b = 0 then (if a = 0 then F64Val.nan else F64Val.posInf)
  else F64Val.fin ((a : ℚ) / (b : ℚ))

/-- The comparison clipping_ratio >= min_clipping_ratio of main.rs line
173, for a finite (rational) threshold: NaN compares false, positive
infinity compares true. -/
def F64Val.ge (x : F64Val) (r : ℚ) : Bool :=
  match x with
  | F64Val.nan => false
  | F64Val.posInf => true
  | F64Val.fin q => decide (r ≤ q)

/-- One row of the clipping report (main.rs lines 163, 176-180). -/
structure ClipRow where
  contig : String
  length : Nat
  pos : Nat
  relative_pos : ℚ
  cov : Nat
  clipping : Nat
  ratioVal : F64Val
deriving DecidableEq

/-- The body of the clip-report loop for a single clip-site entry
(main.rs lines 168-182): look up coverage at the site, form the ratio
and the relative position, and emit the row exactly when the three
filter conditions of lines 173-175 hold. -/
def clipEntryRow (minDist : Nat) (minRatio : ℚ) (contig : String) (data : ContigData)
    (pos clipping : Nat) : Option ClipRow :=
  let cov := data.coverage.getD pos 0
  let ratio := f64Div clipping cov
  let relative_pos : ℚ := (pos : ℚ) / (data.length : ℚ)
  if ratio.ge minRatio = true ∧ pos > minDist ∧ data.length - pos > minDist then
    some { contig := contig, length := data.length, pos := pos,
           relative_pos := relative_pos, cov := cov, clipping := clipping,
           ratioVal := ratio }
  else none

/-- The clip report for one contig (main.rs lines 165-183), with the
clip-site hash map iteration abstracted as a list of (pos, count)
entries. -/
def clipReport (minDist : Nat) (minRatio : ℚ) (contig : String) (data : ContigData)
    (entries : List (Nat × Nat)) : List ClipRow :=
  entries.filterMap (fun e => clipEntryRow minDist minRatio contig data e.1 e.2)

/-- One write to the zero-coverage report file (main.rs lines 192-231).
openRow is the partial line written on entering a zero window (line
201, ending in "start-"); closeRow is the writeln completing a line
with end and size (lines 206 and 214); fullRow is the complete line of
lines 219-223; blankLine is the bare writeln of line 229. -/
inductive ZeroEmit where
  | openRow : Nat → ZeroEmit
  | closeRow : Nat → Nat → ZeroEmit
  | fullRow : Nat → Nat → Nat → ZeroEmit
  | blankLine : ZeroEmit
deriving DecidableEq

/-- Scan state of the zero-coverage loop: the in_window flag, the
window_start, and the writes made so far in order. -/
structure ZScan where
  in_window : Bool
  window_start : Nat
  out : List ZeroEmit

/-- One iteration of the zero-coverage loop of main.rs lines 197-226,
at position pos, including the end-of-contig special case of lines
210-225 (which is keyed on coverage[0] and does not clear the
in_window flag). -/
def zeroCovStep (cov : List Nat) (contigLength : Nat) (st : ZScan) (pos : Nat) : ZScan :=
  let c := cov.getD pos 0
  let e1 : List ZeroEmit :=
    if c = 0 ∧ st.in_window = false then [ZeroEmit.openRow pos]
    else if c > 0 ∧ st.in_window = true then
      [ZeroEmit.closeRow pos (pos - st.window_start)]
    else []
  let ws := if c = 0 ∧ st.in_window = false then pos else st.window_start
  let iw := if c = 0 ∧ st.in_window = false then true
            else if c > 0 ∧ st.in_window = true then false
            else st.in_window
  let e2 : List ZeroEmit :=
    if cov.getD 0 0 = 0 ∧ pos = contigLength - 1 then
      (if iw then [ZeroEmit.closeRow (pos + 1) (pos + 1 - ws)]
       else [ZeroEmit.fullRow pos (pos + 1) 1])
    else []
  { in_window := iw, window_start := ws, out := st.out ++ e1 ++ e2 }

/-- The zero-coverage report pass for one contig (main.rs lines
192-231): fold the loop body over positions 0..length, then the final
bare writeln of lines 228-230 when still inside a window. -/
def zeroCovReport (data : ContigData) : List ZeroEmit :=
  let final := (List.range data.length).foldl
    (zeroCovStep data.coverage data.length) { in_window := false, window_start := 0, out := [] }
  final.out ++ (if final.in_window then [ZeroEmit.blankLine] else [])

/-- The complete closed-open intervals present in the written report
text: an openRow followed by a closeRow forms one line hence one
interval, a fullRow is one line hence one interval, and a blankLine
terminates any pending partial line without completing an interval. -/
def parseIntervals : List ZeroEmit → Option Nat → List (Nat × Nat)
  | [], _ => []
  | ZeroEmit.openRow s :: rest, _ => parseIntervals rest (some s)
  | ZeroEmit.closeRow e _ :: rest, some s => (s, e) :: parseIntervals rest none
  | ZeroEmit.closeRow _ _ :: rest, none => parseIntervals rest none
  | ZeroEmit.fullRow s e _ :: rest, pending => (s, e) :: parseIntervals rest pending
  | ZeroEmit.blankLine :: rest, _ => parseIntervals rest none

/-- The positions of a coverage array that hold a zero count, the set
the spec says the reported intervals must tile exactly. -/
def zeroPositions (cov : List Nat) : List Nat :=
  (List.range cov.length).filter (fun p => cov.getD p 0 = 0)

/-- The coverage-increment loop with the Rust panic made explicit:
coverage[pos] += 1 aborts when pos is out of bounds, modelled as the
none outcome. -/
def addCoverageRangeChecked : List Nat → Nat → Nat → Option (List Nat)
  | cov, _, 0 => some cov
  | cov, start, n + 1 =>
      if start < cov.length then
        addCoverageRangeChecked (cov.set start (cov.getD start 0 + 1)) (start + 1) n
      else none

/-- walkStep with the panic of the coverage write made explicit; all
other arms of the match cannot abort. -/
def walkStepChecked (contig_end : Nat) (st : Nat × Nat × ContigData) (op : Char × Nat) :
    Option (Nat × Nat × ContigData) :=
  if opIsMatch op.1 then
    match addCoverageRangeChecked st.2.2.coverage st.2.1 op.2 with
    | some cov => some (st.1 + 1, st.2.1 + op.2, { st.2.2 with coverage := cov })
    | none => none
  else some (walkStep contig_end st op)

/-- The checked CIGAR walk: none exactly when some coverage write of the
walk indexes outside the coverage array. -/
def walkCigarChecked (contig_end pos : Nat) (cigar : List (Char × Nat)) (d : ContigData) :
    Option ContigData :=
  (cigar.foldlM (walkStepChecked contig_end) (0, pos, d)).map (fun st => st.2.2)

/-- Total reference-consuming length of a CIGAR: the summed lengths of
its match-like and deletion operations, the amount the cursor advances
over the whole walk. -/
def cigarRefLen (cigar : List (Char × Nat)) : Nat :=
  (cigar.map (fun op => if opIsMatch op.1 || op.1 = 'D' then op.2 else 0)).sum

/-- Whether the match-like spans of a CIGAR, walked from cursor cur,
cover position p; mirrors the cursor arithmetic of walkStep. -/
def coversPos (cur : Nat) (cigar : List (Char × Nat)) (p : Nat) : Bool :=
  match cigar with
  | [] => false
  | op :: rest =>
    if opIsMatch op.1 then
      (if cur ≤ p ∧ p < cur + op.2 then true else coversPos (cur + op.2) rest p)
    else if op.1 = 'D' then coversPos (cur + op.2) rest p
    else coversPos cur rest p

/-- Whether a record is mapped, targets contig c, and its match-like
spans cover position p. -/
def readCovers (c : String) (p : Nat) (r : ReadRec) : Bool :=
  !r.is_unmapped && (r.contig == c) && coversPos r.pos r.cigar p

/-- The coverage recorded for contig c at position p by the accumulator
dictionary (0 when no accumulator exists for c). -/
def covAt (d : String → Option ContigData) (c : String) (p : Nat) : Nat :=
  match d c with
  | none => 0
  | some cd => cd.coverage.getD p 0

/-- The invariant the stream pass maintains: every accumulator present
in the dictionary has a coverage array whose length is the registry
length of its contig (spec invariant I1). -/
def WfDict (contigsSize : String → Nat) (d : String → Option ContigData) : Prop :=
  ∀ c cd, d c = some cd → cd.coverage.length = contigsSize c

/-- One primitive additive mutation of an accumulator: a single coverage
increment or a single clip-count increment. -/
inductive Delta where
  | covIncr : Nat → Delta
  | clipIncr : Nat → Delta

/-- Apply one primitive mutation. -/
def applyDelta (d : ContigData) : Delta → ContigData
  | Delta.covIncr p => { d with coverage := d.coverage.set p (d.coverage.getD p 0 + 1) }
  | Delta.clipIncr p => d.add_clipping p

/-- Apply a sequence of primitive mutations in order. -/
def applyDeltas (l : List Delta) (d : ContigData) : ContigData := l.foldl applyDelta d

/-- The coverage increments of one match-like operation: positions
start, start+1, ..., start+n-1, in order. -/
def rangeDeltas (start : Nat) : Nat → List Delta
  | 0 => []
  | n + 1 => Delta.covIncr start :: rangeDeltas (start + 1) n

/-- The full mutation sequence of one CIGAR walk, a pure function of
the contig length, prior-operation count, cursor and operation list:
walkCigar equals applying these mutations in order (proved below). -/
def cigarDeltas (contig_end : Nat) : Nat → Nat → List (Char × Nat) → List Delta
  | _, _, [] => []
  | k, cur, op :: rest =>
    if opIsMatch op.1 then
      rangeDeltas cur op.2 ++ cigarDeltas contig_end (k + 1) (cur + op.2) rest
    else if op.1 = 'D' then cigarDeltas contig_end (k + 1) (cur + op.2) rest
    else if opIsClip op.1 then
      (if k + 1 = 1 then (if cur ≠ 0 then [Delta.clipIncr cur] else [])
       else if cur ≠ contig_end then [Delta.clipIncr (cur - 1)] else []) ++
      cigarDeltas contig_end (k + 1) cur rest
    else cigarDeltas contig_end (k + 1) cur rest

/-- C1: the confirmation gate never fires.  just_do_it is hardcoded to
true at main.rs line 64, so the gate of lines 66-72 returns ok on every
run, and the command-line parser registers no just-do-it argument at
all, so the operator cannot even supply the confirmation the claim
speaks of: every run proceeds to process alignments without any
confirmation, instead of exiting with a non-zero status. -/
theorem C1_gate_never_fires :
    runGate = Except.ok () ∧ just_do_it = true ∧
    "just_do_it" ∉ recognizedArgIds ∧ "just-do-it" ∉ recognizedArgIds := by
  exact ⟨rfl, rfl, by decide, by decide⟩

/-- C2: the zero-coverage pass does not emit exactly the maximal runs of
zero coverage.  On coverage [0, 1] the end-of-contig special case of
main.rs lines 210-225 (keyed on coverage[0] being zero) emits a spurious
interval [1, 2) although position 1 has coverage 1 (the only zero
position is 0); and on coverage [1, 0] the trailing zero-run is never
closed at the contig length: the bare writeln of line 229 truncates the
pending line, so no interval at all is reported although position 1 has
coverage 0. -/
theorem C2_end_of_contig_bug :
    parseIntervals (zeroCovReport ⟨[0, 1], fun _ => 0, 2⟩) none = [(0, 1), (1, 2)] ∧
    zeroPositions [0, 1] = [0] ∧
    parseIntervals (zeroCovReport ⟨[1, 0], fun _ => 0, 2⟩) none = [] ∧
    zeroPositions [1, 0] = [1] := by
  exact ⟨by decide, by decide, by decide, by decide⟩

/-- C10: a clip operation that is not the first operation of the list is
not subject to the position-0 suppression.  For the mapped read at
leftmost position 0 with operation list [(I, 5), (S, 3)] on a contig of
length 10, the clip is the second operation, the cursor still equals 0
(insertions advance nothing), and the walker records a clip site at
position 0 - 1 saturated to 0. -/
theorem C10_nonfirst_clip_recorded_at_zero :
    ((processRead (fun _ => 10) emptyDict
        { is_unmapped := false, contig := "c", pos := 0, cigar := [('I', 5), ('S', 3)] }) "c").map
      (fun d => d.clipping 0) = some 1 := by
  decide

/-- The clip arm of the CIGAR match, isolated: for a soft or hard clip
the walker neither moves the cursor nor touches coverage, and updates
the clip map per the num_tup test of main.rs lines 143-150. -/
lemma walkStep_clip (ce k cur : Nat) (d : ContigData) (c : Char) (n : Nat)
    (hm : opIsMatch c = false) (hd : ¬ c = 'D') (hs : opIsClip c = true) :
    walkStep ce (k, cur, d) (c, n) =
      (k + 1, cur,
        if k + 1 = 1 then (if cur ≠ 0 then d.add_clipping cur else d)
        else if cur ≠ ce then d.add_clipping (cur - 1) else d) := by
  simp only [walkStep, hm, hd, hs, Bool.false_eq_true, if_false, if_true]
  split_ifs <;> rfl

/-- C3: clip-site recording.  For a clip operation (soft or hard), the
cursor does not advance, coverage is untouched, and the clip map gains
exactly one count: at the cursor when the clip is the first operation
(k = 0 prior operations) and the cursor is nonzero, or at cursor - 1
(Nat subtraction, saturating) when the clip is not the first operation
and the cursor differs from the contig length; in all other cases
nothing is recorded.  In particular a first-operation clip at cursor 0
and a later clip at cursor = contig length are never recorded. -/
theorem C3_clip_recording (ce k cur : Nat) (d : ContigData) (c : Char) (n : Nat)
    (hc : c = 'S' ∨ c = 'H') :
    (walkStep ce (k, cur, d) (c, n)).2.1 = cur ∧
    (walkStep ce (k, cur, d) (c, n)).2.2.coverage = d.coverage ∧
    ∀ q, (walkStep ce (k, cur, d) (c, n)).2.2.clipping q =
      d.clipping q +
        (if (k = 0 ∧ q = cur ∧ cur ≠ 0) ∨ (k ≠ 0 ∧ q = cur - 1 ∧ cur ≠ ce)
         then 1 else 0) := by
  have hm : opIsMatch c = false := by rcases hc with rfl | rfl <;> decide
  have hd : ¬ c = 'D' := by rcases hc with rfl | rfl <;> decide
  have hs : opIsClip c = true := by rcases hc with rfl | rfl <;> decide
  rw [walkStep_clip ce k cur d c n hm hd hs]
  refine ⟨rfl, ?_, ?_⟩
  · split_ifs <;> rfl
  · intro q
    by_cases hk : k = 0
    · subst hk
      simp only [Nat.zero_add, if_pos rfl]
      by_cases h0 : cur ≠ 0
      · rw [if_pos h0]
        simp only [ContigData.add_clipping, Function.update_apply]
        by_cases hq : q = cur
        · simp [hq, h0]
        · simp [hq, h0]
      · rw [if_neg h0]
        simp only [not_not] at h0
        simp [h0]
    · have hk1 : ¬ k + 1 = 1 := by omega
      rw [if_neg hk1]
      by_cases he : cur ≠ ce
      · rw [if_pos he]
        simp only [ContigData.add_clipping, Function.update_apply]
        by_cases hq : q = cur - 1
        · simp [hq, hk, he]
        · simp [hq, hk, he]
      · rw [if_neg he]
        simp only [not_not] at he
        simp [hk, he]

/-- C3 witness: a trailing soft clip after one prior operation, with the
cursor at 5 on a contig of length 10, records exactly one clip count at
position 4. -/
theorem C3_clip_recording_witness :
    (walkStep 10 (1, 5, ContigData.new 10) ('S', 3)).2.2.clipping 4 = 1 := by
  have h := (C3_clip_recording 10 1 5 (ContigData.new 10) 'S' 3 (Or.inl rfl)).2.2 4
  simpa using h

/-- C4: for a clip site with positive coverage, a report row is emitted
exactly when the real-valued ratio clip count / coverage is at least the
threshold and the position is farther than min_dist_to_end from both
contig ends (main.rs lines 173-175); the emitted row carries the contig
name, the contig length, the position, the relative position, the
coverage, the clip count and the ratio (lines 176-180). -/
theorem C4_clip_filter (minDist : Nat) (minRatio : ℚ) (contig : String) (data : ContigData)
    (pos clipping : Nat) (hcov : 0 < data.coverage.getD pos 0) :
    ((clipEntryRow minDist minRatio contig data pos clipping).isSome = true ↔
      (minRatio ≤ (clipping : ℚ) / (data.coverage.getD pos 0 : ℚ) ∧
        pos > minDist ∧ data.length - pos > minDist)) ∧
    ∀ row, clipEntryRow minDist minRatio contig data pos clipping = some row →
      row.contig = contig ∧ row.length = data.length ∧ row.pos = pos ∧
      row.relative_pos = (pos : ℚ) / (data.length : ℚ) ∧
      row.cov = data.coverage.getD pos 0 ∧ row.clipping = clipping ∧
      row.ratioVal = F64Val.fin ((clipping : ℚ) / (data.coverage.getD pos 0 : ℚ)) := by
  have hne : data.coverage.getD pos 0 ≠ 0 := Nat.pos_iff_ne_zero.mp hcov
  have hdiv : f64Div clipping (data.coverage.getD pos 0) =
      F64Val.fin ((clipping : ℚ) / (data.coverage.getD pos 0 : ℚ)) := if_neg hne
  constructor
  · simp only [clipEntryRow, hdiv, F64Val.ge, decide_eq_true_eq]
    split_ifs with h
    · simpa using h
    · simpa using h
  · intro row h
    simp only [clipEntryRow, hdiv, F64Val.ge, decide_eq_true_eq] at h
    split_ifs at h
    cases h
    exact ⟨rfl, rfl, rfl, rfl, rfl, rfl, rfl⟩

/-- C4 witness: coverage 5 at position 2 of a length-5 contig, clip
count 7, threshold 1, minimum end distance 1: the iff and the row-shape
conclusions instantiated at this concrete site. -/
theorem C4_clip_filter_witness :
    (((clipEntryRow 1 1 "c" ⟨[1, 1, 5, 1, 1], fun _ => 0, 5⟩ 2 7).isSome = true ↔
      ((1 : ℚ) ≤ ((7 : Nat) : ℚ) / (((⟨[1, 1, 5, 1, 1], fun _ => 0, 5⟩ :
          ContigData).coverage.getD 2 0 : Nat) : ℚ) ∧
        2 > 1 ∧ (⟨[1, 1, 5, 1, 1], fun _ => 0, 5⟩ : ContigData).length - 2 > 1)) ∧
    ∀ row, clipEntryRow 1 1 "c" ⟨[1, 1, 5, 1, 1], fun _ => 0, 5⟩ 2 7 = some row →
      row.contig = "c" ∧ row.length = (⟨[1, 1, 5, 1, 1], fun _ => 0, 5⟩ : ContigData).length ∧
      row.pos = 2 ∧
      row.relative_pos = ((2 : Nat) : ℚ) / (((⟨[1, 1, 5, 1, 1], fun _ => 0, 5⟩ :
          ContigData).length : Nat) : ℚ) ∧
      row.cov = (⟨[1, 1, 5, 1, 1], fun _ => 0, 5⟩ : ContigData).coverage.getD 2 0 ∧
      row.clipping = 7 ∧
      row.ratioVal = F64Val.fin (((7 : Nat) : ℚ) / (((⟨[1, 1, 5, 1, 1], fun _ => 0, 5⟩ :
          ContigData).coverage.getD 2 0 : Nat) : ℚ))) :=
  C4_clip_filter 1 1 "c" ⟨[1, 1, 5, 1, 1], fun _ => 0, 5⟩ 2 7 (by decide)

/-- C5: a clip site whose coverage is 0 but whose clip count is positive
always qualifies when the two distance-from-end constraints hold: the
f64 division of main.rs line 170 yields positive infinity, which
satisfies the ratio comparison of line 173 against any finite
threshold. -/
theorem C5_zero_cov_always_qualifies (minDist : Nat) (minRatio : ℚ) (contig : String)
    (data : ContigData) (pos clipping : Nat)
    (hcov : data.coverage.getD pos 0 = 0) (hclip : 0 < clipping)
    (h1 : pos > minDist) (h2 : data.length - pos > minDist) :
    (clipEntryRow minDist minRatio contig data pos clipping).isSome = true := by
  have hne : clipping ≠ 0 := Nat.pos_iff_ne_zero.mp hclip
  have hdiv : f64Div clipping (data.coverage.getD pos 0) = F64Val.posInf := by
    rw [hcov]; simp [f64Div, hne]
  simp only [clipEntryRow, hdiv, F64Val.ge]
  rw [if_pos ⟨trivial, h1, h2⟩]
  rfl

/-- C5 witness: a concrete zero-coverage clip site with positive clip
count and both distance constraints satisfied is emitted, even against
a huge ratio threshold. -/
theorem C5_zero_cov_always_qualifies_witness :
    (clipEntryRow 1 1000 "c" ⟨[1, 1, 0, 1, 1], fun _ => 0, 5⟩ 2 3).isSome = true :=
  C5_zero_cov_always_qualifies 1 1000 "c" ⟨[1, 1, 0, 1, 1], fun _ => 0, 5⟩ 2 3
    (by decide) (by decide) (by decide) (by decide)

/-- C7: processing an unmapped record leaves the accumulator dictionary
unchanged (and the model is total, no error path), and processing a
mapped record touches only the entry of the record's own contig: every
other contig's accumulator is untouched, while the entry for the
record's contig is present afterwards. -/
theorem C7_frame (sizes : String → Nat) (d : String → Option ContigData) (r : ReadRec) :
    (r.is_unmapped = true → processRead sizes d r = d) ∧
    (r.is_unmapped = false →
      (∀ c, c ≠ r.contig → processRead sizes d r c = d c) ∧
      ∃ cd, processRead sizes d r r.contig = some cd) := by
  constructor
  · intro h
    simp [processRead, h]
  · intro h
    refine ⟨fun c hc => ?_, ?_⟩
    · simp [processRead, h, Function.update_noteq hc]
    · simp [processRead, h]

/-- C7 witness: a concrete unmapped record changes nothing, and a
concrete mapped record on contig c1 leaves contig c2 untouched. -/
theorem C7_frame_witness :
    processRead (fun _ => 10) emptyDict
      { is_unmapped := true, contig := "c1", pos := 0, cigar := [('M', 4)] } = emptyDict ∧
    processRead (fun _ => 10) emptyDict
      { is_unmapped := false, contig := "c1", pos := 0, cigar := [('M', 4)] } "c2" =
      emptyDict "c2" :=
  ⟨(C7_frame (fun _ => 10) emptyDict
      { is_unmapped := true, contig := "c1", pos := 0, cigar := [('M', 4)] }).1 rfl,
   ((C7_frame (fun _ => 10) emptyDict
      { is_unmapped := false, contig := "c1", pos := 0, cigar := [('M', 4)] }).2 rfl).1 "c2"
      (by decide)⟩

/-- addCoverageRange preserves the length of the coverage array. -/
lemma addCoverageRange_length (n : Nat) : ∀ (cov : List Nat) (s : Nat),
    (addCoverageRange cov s n).length = cov.length := by
  induction n with
  | zero => intro cov s; rfl
  | succ n ih =>
      intro cov s
      simp [addCoverageRange, ih]

/-- Every arm of walkStep preserves the length of the coverage array. -/
lemma walkStep_coverage_length (ce : Nat) (st : Nat × Nat × ContigData) (op : Char × Nat) :
    (walkStep ce st op).2.2.coverage.length = st.2.2.coverage.length := by
  simp only [walkStep]
  split_ifs <;> simp [ContigData.add_clipping, addCoverageRange_length]

/-- The whole walk preserves the length of the coverage array. -/
lemma walkFold_coverage_length (ce : Nat) (cigar : List (Char × Nat)) :
    ∀ st : Nat × Nat × ContigData,
      ((cigar.foldl (walkStep ce) st).2.2).coverage.length = st.2.2.coverage.length := by
  induction cigar with
  | nil => intro st; rfl
  | cons op rest ih =>
      intro st
      rw [List.foldl_cons, ih]
      exact walkStep_coverage_length ce st op

/-- The cursor advances by the operation length on match-like and
deletion operations and stays put otherwise. -/
lemma walkStep_cursor (ce : Nat) (st : Nat × Nat × ContigData) (op : Char × Nat) :
    (walkStep ce st op).2.1 =
      st.2.1 + (if opIsMatch op.1 || op.1 = 'D' then op.2 else 0) := by
  simp only [walkStep]
  split_ifs <;> simp_all

/-- Unfolding cigarRefLen over a cons. -/
lemma cigarRefLen_cons (op : Char × Nat) (rest : List (Char × Nat)) :
    cigarRefLen (op :: rest) =
      (if opIsMatch op.1 || op.1 = 'D' then op.2 else 0) + cigarRefLen rest := by
  simp [cigarRefLen]

/-- When every write of the increment loop is in bounds, the checked
loop succeeds and agrees with the total one. -/
lemma addCoverageRangeChecked_eq (n : Nat) : ∀ (cov : List Nat) (s : Nat),
    s + n ≤ cov.length →
    addCoverageRangeChecked cov s n = some (addCoverageRange cov s n) := by
  induction n with
  | zero => intro cov s _; rfl
  | succ n ih =>
      intro cov s h
      have hs : s < cov.length := by omega
      simp only [addCoverageRangeChecked, addCoverageRange, if_pos hs]
      exact ih _ (s + 1) (by simp only [List.length_set]; omega)

/-- When the cursor plus the remaining reference-consuming length stays
within the coverage array, the checked walk succeeds and agrees with the
total walk, from any intermediate state. -/
lemma walkChecked_eq (ce : Nat) (cigar : List (Char × Nat)) :
    ∀ (k cur : Nat) (d : ContigData), d.coverage.length = ce →
      cur + cigarRefLen cigar ≤ ce →
      cigar.foldlM (walkStepChecked ce) ((k, cur, d) : Nat × Nat × ContigData) =
        some (cigar.foldl (walkStep ce) (k, cur, d)) := by
  induction cigar with
  | nil => intro k cur d _ _; rfl
  | cons op rest ih =>
      intro k cur d hlen hb
      rw [List.foldlM_cons, List.foldl_cons]
      rw [cigarRefLen_cons] at hb
      by_cases hm : opIsMatch op.1 = true
      · have hr : cur + op.2 ≤ ce := by
          rw [if_pos (by simp [hm])] at hb
          omega
        have hchk := addCoverageRangeChecked_eq op.2 d.coverage cur (by rw [hlen]; exact hr)
        have hstep2 : walkStep ce (k, cur, d) op =
            (k + 1, cur + op.2, { d with coverage := addCoverageRange d.coverage cur op.2 }) := by
          simp [walkStep, hm]
        have hstepc : walkStepChecked ce (k, cur, d) op =
            some (k + 1, cur + op.2,
              { d with coverage := addCoverageRange d.coverage cur op.2 }) := by
          simp [walkStepChecked, hm, hchk]
        rw [hstepc, hstep2]
        show rest.foldlM (walkStepChecked ce) _ = _
        exact ih (k + 1) (cur + op.2) _
          (by simp [addCoverageRange_length, hlen])
          (by rw [if_pos (by simp [hm])] at hb; omega)
      · have hstep : walkStepChecked ce (k, cur, d) op = some (walkStep ce (k, cur, d) op) := by
          simp [walkStepChecked, hm]
        rw [hstep]
        show rest.foldlM (walkStepChecked ce) _ = _
        have hlen' : (walkStep ce (k, cur, d) op).2.2.coverage.length = ce := by
          rw [walkStep_coverage_length]; exact hlen
        have hcur : (walkStep ce (k, cur, d) op).2.1 + cigarRefLen rest ≤ ce := by
          rw [walkStep_cursor]
          show cur + (if opIsMatch op.1 || op.1 = 'D' then op.2 else 0) + cigarRefLen rest ≤ ce
          generalize (if opIsMatch op.1 || op.1 = 'D' then op.2 else 0) = w at hb ⊢
          omega
        simpa using ih (walkStep ce (k, cur, d) op).1 (walkStep ce (k, cur, d) op).2.1
          (walkStep ce (k, cur, d) op).2.2 hlen' hcur

/-- C9: the coverage array length is fixed at creation to the declared
contig length, and under the precondition that the leftmost position
plus the total reference-consuming CIGAR length does not exceed that
length, the checked walk (in which an out-of-bounds coverage write is
the abort outcome) succeeds and agrees with the total walk, whose
result still has the declared coverage length: the panic branch is
unreachable. -/
theorem C9_no_out_of_bounds (ce pos : Nat) (cigar : List (Char × Nat)) (d : ContigData)
    (hlen : d.coverage.length = ce) (hb : pos + cigarRefLen cigar ≤ ce) :
    (ContigData.new ce).coverage.length = ce ∧
    walkCigarChecked ce pos cigar d = some (walkCigar ce pos cigar d) ∧
    (walkCigar ce pos cigar d).coverage.length = ce := by
  refine ⟨by simp [ContigData.new], ?_, ?_⟩
  · unfold walkCigarChecked walkCigar
    rw [walkChecked_eq ce cigar 0 pos d hlen hb]
    rfl
  · unfold walkCigar
    rw [walkFold_coverage_length]
    exact hlen

/-- C9 witness: a soft clip then a three-base match starting at
position 1 on a fresh length-5 accumulator stays in bounds and the
checked walk agrees with the total walk. -/
theorem C9_no_out_of_bounds_witness :
    (ContigData.new 5).coverage.length = 5 ∧
    walkCigarChecked 5 1 [('S', 2), ('M', 3)] (ContigData.new 5) =
      some (walkCigar 5 1 [('S', 2), ('M', 3)] (ContigData.new 5)) ∧
    (walkCigar 5 1 [('S', 2), ('M', 3)] (ContigData.new 5)).coverage.length = 5 :=
  C9_no_out_of_bounds 5 1 [('S', 2), ('M', 3)] (ContigData.new 5) (by decide) (by decide)

/-- Positions strictly left of the cursor are never covered by the rest
of the walk: the cursor only moves right. -/
lemma coversPos_false_of_lt (p : Nat) : ∀ (cigar : List (Char × Nat)) (cur : Nat),
    p < cur → coversPos cur cigar p = false := by
  intro cigar
  induction cigar with
  | nil => intro cur _; rfl
  | cons op rest ih =>
      intro cur hp
      simp only [coversPos]
      split_ifs with h1 h2 h3
      · omega
      · exact ih (cur + op.2) (by omega)
      · exact ih (cur + op.2) (by omega)
      · exact ih cur hp

/-- Effect of the coverage-increment loop on one in-bounds position:
plus one inside the written range, untouched outside it. -/
lemma getD_addCoverageRange (p : Nat) : ∀ (n : Nat) (cov : List Nat) (s : Nat),
    p < cov.length →
    (addCoverageRange cov s n).getD p 0 =
      cov.getD p 0 + (if s ≤ p ∧ p < s + n then 1 else 0) := by
  intro n
  induction n with
  | zero =>
      intro cov s _
      show cov.getD p 0 = cov.getD p 0 + (if s ≤ p ∧ p < s + 0 then 1 else 0)
      rw [if_neg (by omega : ¬(s ≤ p ∧ p < s + 0))]
      omega
  | succ n ih =>
      intro cov s hp
      show (addCoverageRange (cov.set s (cov.getD s 0 + 1)) (s + 1) n).getD p 0 = _
      rw [ih (cov.set s (cov.getD s 0 + 1)) (s + 1) (by simpa using hp)]
      by_cases hps : p = s
      · subst hps
        have hset : (cov.set p (cov.getD p 0 + 1)).getD p 0 = cov.getD p 0 + 1 := by
          simp [List.getD_eq_getElem?_getD, List.getElem?_set_self hp]
        rw [hset]
        split_ifs <;> omega
      · have hset : (cov.set s (cov.getD s 0 + 1)).getD p 0 = cov.getD p 0 := by
          simp [List.getD_eq_getElem?_getD, List.getElem?_set_ne (Ne.symm hps)]
        rw [hset]
        split_ifs <;> omega

/-- Effect of a whole walk on one in-bounds coverage position: plus one
exactly when some match-like span of the CIGAR covers it. -/
lemma walkFold_getD (ce p : Nat) : ∀ (cigar : List (Char × Nat)) (k cur : Nat)
    (d : ContigData), p < d.coverage.length →
    ((cigar.foldl (walkStep ce) (k, cur, d)).2.2).coverage.getD p 0 =
      d.coverage.getD p 0 + (if coversPos cur cigar p = true then 1 else 0) := by
  intro cigar
  induction cigar with
  | nil =>
      intro k cur d _
      simp [coversPos]
  | cons op rest ih =>
      intro k cur d hp
      rw [List.foldl_cons]
      by_cases hm : opIsMatch op.1 = true
      · have hstep : walkStep ce (k, cur, d) op =
            (k + 1, cur + op.2,
              { d with coverage := addCoverageRange d.coverage cur op.2 }) := by
          simp [walkStep, hm]
        rw [hstep,
          ih (k + 1) (cur + op.2) _ (by simpa [addCoverageRange_length] using hp)]
        show (addCoverageRange d.coverage cur op.2).getD p 0 +
            (if coversPos (cur + op.2) rest p = true then 1 else 0) =
          d.coverage.getD p 0 + (if coversPos cur (op :: rest) p = true then 1 else 0)
        rw [getD_addCoverageRange p op.2 d.coverage cur hp]
        by_cases hin : cur ≤ p ∧ p < cur + op.2
        · have hlater := coversPos_false_of_lt p rest (cur + op.2) (by omega)
          have hc : coversPos cur (op :: rest) p = true := by
            simp [coversPos, hm, hin]
          rw [hc, hlater, if_pos hin]
          simp
        · have hc : coversPos cur (op :: rest) p = coversPos (cur + op.2) rest p := by
            simp [coversPos, hm, hin]
          rw [hc, if_neg hin]
          simp
      · by_cases hd : op.1 = 'D'
        · have hstep : walkStep ce (k, cur, d) op = (k + 1, cur + op.2, d) := by
            simp [walkStep, hm, hd, opIsMatch]
          rw [hstep, ih (k + 1) (cur + op.2) d hp]
          have hc : coversPos cur (op :: rest) p = coversPos (cur + op.2) rest p := by
            simp [coversPos, hm, hd, opIsMatch]
          rw [hc]
        · have hcov : (walkStep ce (k, cur, d) op).2.2.coverage = d.coverage := by
            simp only [walkStep]
            split_ifs <;> simp_all [ContigData.add_clipping]
          have hcur2 : (walkStep ce (k, cur, d) op).2.1 = cur := by
            rw [walkStep_cursor]
            simp [hm, hd]
          have hih := ih (walkStep ce (k, cur, d) op).1 (walkStep ce (k, cur, d) op).2.1
            (walkStep ce (k, cur, d) op).2.2 (by rw [hcov]; exact hp)
          rw [show ((walkStep ce (k, cur, d) op).1, (walkStep ce (k, cur, d) op).2.1,
              (walkStep ce (k, cur, d) op).2.2) = walkStep ce (k, cur, d) op from rfl] at hih
          rw [hih, hcov, hcur2]
          have hc : coversPos cur (op :: rest) p = coversPos cur rest p := by
            simp [coversPos, hm, hd]
          rw [hc]

/-- Reading covAt through a some entry. -/
lemma covAt_eq_of_some {d : String → Option ContigData} {c : String} {cd : ContigData}
    (h : d c = some cd) (p : Nat) : covAt d c p = cd.coverage.getD p 0 := by
  simp [covAt, h]

/-- Reading covAt through a missing entry. -/
lemma covAt_eq_of_none {d : String → Option ContigData} {c : String}
    (h : d c = none) (p : Nat) : covAt d c p = 0 := by
  simp [covAt, h]

/-- Processing one record adds exactly one to the coverage of an
in-bounds position when the record covers it, and nothing otherwise. -/
lemma covAt_processRead (sizes : String → Nat) (d : String → Option ContigData)
    (r : ReadRec) (c : String) (p : Nat) (hwf : WfDict sizes d) (hp : p < sizes c) :
    covAt (processRead sizes d r) c p =
      covAt d c p + (if readCovers c p r = true then 1 else 0) := by
  by_cases hu : r.is_unmapped = true
  · simp [processRead, hu, readCovers]
  · have hu' : r.is_unmapped = false := by simpa using hu
    by_cases hc : r.contig = c
    · subst hc
      have hrc : readCovers r.contig p r = coversPos r.pos r.cigar p := by
        simp [readCovers, hu']
      rw [hrc]
      rcases hd0 : d r.contig with _ | cd
      · have hup : (processRead sizes d r) r.contig =
            some (walkCigar (sizes r.contig) r.pos r.cigar
              (ContigData.new (sizes r.contig))) := by
          simp [processRead, hu', hd0, Function.update_same]
        rw [covAt_eq_of_some hup p, covAt_eq_of_none hd0 p]
        have hlen : (ContigData.new (sizes r.contig)).coverage.length = sizes r.contig := by
          simp [ContigData.new]
        rw [walkCigar, walkFold_getD (sizes r.contig) p r.cigar 0 r.pos
          (ContigData.new (sizes r.contig)) (by rw [hlen]; exact hp)]
        have hz : (ContigData.new (sizes r.contig)).coverage.getD p 0 = 0 := by
          simp [ContigData.new, List.getD_eq_getElem?_getD, List.getElem?_replicate, hp]
        rw [hz]
      · have hup : (processRead sizes d r) r.contig =
            some (walkCigar (sizes r.contig) r.pos r.cigar cd) := by
          simp [processRead, hu', hd0, Function.update_same]
        rw [covAt_eq_of_some hup p, covAt_eq_of_some hd0 p]
        have hlen := hwf r.contig cd hd0
        rw [walkCigar, walkFold_getD (sizes r.contig) p r.cigar 0 r.pos cd
          (by rw [hlen]; exact hp)]
    · have hnc : (processRead sizes d r) c = d c := by
        simp [processRead, hu', Function.update_noteq (Ne.symm hc)]
      have hrc : readCovers c p r = false := by
        simp [readCovers, hu', hc]
      rw [hrc]
      simp only [Bool.false_eq_true, if_false, Nat.add_zero]
      rw [covAt, covAt, hnc]

/-- The stream pass preserves the coverage-length invariant I1. -/
lemma WfDict_processRead (sizes : String → Nat) (d : String → Option ContigData)
    (r : ReadRec) (hwf : WfDict sizes d) : WfDict sizes (processRead sizes d r) := by
  intro c cd hc
  by_cases hu : r.is_unmapped = true
  · rw [show processRead sizes d r = d by simp [processRead, hu]] at hc
    exact hwf c cd hc
  · have hu' : r.is_unmapped = false := by simpa using hu
    by_cases hcr : c = r.contig
    · subst hcr
      rcases hd0 : d r.contig with _ | cd0
      · rw [show (processRead sizes d r) r.contig =
            some (walkCigar (sizes r.contig) r.pos r.cigar
              (ContigData.new (sizes r.contig))) by
          simp [processRead, hu', hd0, Function.update_same]] at hc
        cases hc
        simp only [walkCigar]
        rw [walkFold_coverage_length]
        simp [ContigData.new]
      · rw [show (processRead sizes d r) r.contig =
            some (walkCigar (sizes r.contig) r.pos r.cigar cd0) by
          simp [processRead, hu', hd0, Function.update_same]] at hc
        cases hc
        simp only [walkCigar]
        rw [walkFold_coverage_length]
        exact hwf r.contig cd0 hd0
    · rw [show (processRead sizes d r) c = d c by
        simp [processRead, hu', Function.update_noteq hcr]] at hc
      exact hwf c cd hc

/-- Coverage after a whole prefix of the stream equals the count of
records of the prefix that cover the position, from any well-formed
starting dictionary. -/
lemma covAt_processReads (sizes : String → Nat) (c : String) (p : Nat) (hp : p < sizes c) :
    ∀ (reads : List ReadRec) (d : String → Option ContigData), WfDict sizes d →
      covAt (processReads sizes d reads) c p =
        covAt d c p + reads.countP (readCovers c p) := by
  intro reads
  induction reads with
  | nil =>
      intro d _
      simp [processReads]
  | cons r rest ih =>
      intro d hwf
      have ih' := ih (processRead sizes d r) (WfDict_processRead sizes d r hwf)
      simp only [processReads, List.foldl_cons]
      simp only [processReads] at ih'
      rw [ih', covAt_processRead sizes d r c p hwf hp, List.countP_cons]
      omega

/-- C8: after processing any prefix of the record stream from the empty
dictionary, coverage of contig c at an in-bounds position p equals the
number of processed records whose match-like spans cover p, and
processing further records can only leave it equal or larger (coverage
is a Nat count: never negative, never decremented). -/
theorem C8_coverage_counts (sizes : String → Nat) (reads more : List ReadRec)
    (c : String) (p : Nat) (hp : p < sizes c) :
    covAt (processReads sizes emptyDict reads) c p = reads.countP (readCovers c p) ∧
    covAt (processReads sizes emptyDict reads) c p ≤
      covAt (processReads sizes emptyDict (reads ++ more)) c p := by
  have hwf : WfDict sizes emptyDict := by
    intro c' cd h
    simp [emptyDict] at h
  have h1 := covAt_processReads sizes c p hp reads emptyDict hwf
  have h2 := covAt_processReads sizes c p hp (reads ++ more) emptyDict hwf
  have h0 : covAt emptyDict c p = 0 := rfl
  constructor
  · rw [h1, h0]
    simp
  · rw [h1, h2, h0, List.countP_append]
    omega

/-- C8 witness: one mapped record matching positions 2 to 5 gives
coverage 1 at position 3, and appending nothing keeps it. -/
theorem C8_coverage_counts_witness :
    covAt (processReads (fun _ => 10) emptyDict
        [{ is_unmapped := false, contig := "c", pos := 2, cigar := [('M', 4)] }]) "c" 3 =
      List.countP (readCovers "c" 3)
        [{ is_unmapped := false, contig := "c", pos := 2, cigar := [('M', 4)] }] ∧
    covAt (processReads (fun _ => 10) emptyDict
        [{ is_unmapped := false, contig := "c", pos := 2, cigar := [('M', 4)] }]) "c" 3 ≤
      covAt (processReads (fun _ => 10) emptyDict
        ([{ is_unmapped := false, contig := "c", pos := 2, cigar := [('M', 4)] }] ++ [])) "c" 3 :=
  C8_coverage_counts (fun _ => 10)
    [{ is_unmapped := false, contig := "c", pos := 2, cigar := [('M', 4)] }] [] "c" 3
    (by decide)

/-- Two primitive mutations commute: coverage and clip increments are
pure additive accumulations on independent cells. -/
lemma applyDelta_comm (d : ContigData) (a b : Delta) :
    applyDelta (applyDelta d a) b = applyDelta (applyDelta d b) a := by
  rcases a with p | p <;> rcases b with q | q
  · by_cases hpq : p = q
    · subst hpq; rfl
    · simp only [applyDelta]
      have h1 : (d.coverage.set p (d.coverage.getD p 0 + 1)).getD q 0 =
          d.coverage.getD q 0 := by
        simp [List.getD_eq_getElem?_getD, List.getElem?_set_ne hpq]
      have h2 : (d.coverage.set q (d.coverage.getD q 0 + 1)).getD p 0 =
          d.coverage.getD p 0 := by
        simp [List.getD_eq_getElem?_getD, List.getElem?_set_ne (Ne.symm hpq)]
      rw [h1, h2, List.set_comm _ _ _ hpq]
  · rfl
  · rfl
  · by_cases hpq : p = q
    · subst hpq; rfl
    · simp only [applyDelta, ContigData.add_clipping]
      have h1 : Function.update d.clipping p (d.clipping p + 1) q = d.clipping q :=
        Function.update_noteq (Ne.symm hpq) _ _
      have h2 : Function.update d.clipping q (d.clipping q + 1) p = d.clipping p :=
        Function.update_noteq hpq _ _
      rw [h1, h2, Function.update_comm hpq]

/-- A mutation list commutes past a single mutation. -/
lemma applyDeltas_delta_comm (l : List Delta) : ∀ (d : ContigData) (a : Delta),
    applyDeltas l (applyDelta d a) = applyDelta (applyDeltas l d) a := by
  induction l with
  | nil => intro d a; rfl
  | cons b t ih =>
      intro d a
      show applyDeltas t (applyDelta (applyDelta d a) b) = _
      rw [applyDelta_comm d a b, ih (applyDelta d b) a]
      rfl

/-- Two mutation lists commute. -/
lemma applyDeltas_comm (l1 : List Delta) : ∀ (l2 : List Delta) (d : ContigData),
    applyDeltas l1 (applyDeltas l2 d) = applyDeltas l2 (applyDeltas l1 d) := by
  induction l1 with
  | nil => intro l2 d; rfl
  | cons a t ih =>
      intro l2 d
      show applyDeltas t (applyDelta (applyDeltas l2 d) a) = _
      rw [← applyDeltas_delta_comm l2 d a, ih l2 (applyDelta d a)]
      rfl

/-- Appending mutation lists is sequential application. -/
lemma applyDeltas_append (l1 l2 : List Delta) (d : ContigData) :
    applyDeltas (l1 ++ l2) d = applyDeltas l2 (applyDeltas l1 d) := by
  simp [applyDeltas, List.foldl_append]

/-- The coverage-increment loop is the range of covIncr mutations. -/
lemma setCov_applyDeltas : ∀ (n s : Nat) (d : ContigData),
    ({ d with coverage := addCoverageRange d.coverage s n } : ContigData) =
      applyDeltas (rangeDeltas s n) d := by
  intro n
  induction n with
  | zero => intro s d; rfl
  | succ n ih =>
      intro s d
      show ({ d with coverage :=
          addCoverageRange (d.coverage.set s (d.coverage.getD s 0 + 1)) (s + 1) n } :
          ContigData) =
        applyDeltas (rangeDeltas (s + 1) n) (applyDelta d (Delta.covIncr s))
      rw [← ih (s + 1) (applyDelta d (Delta.covIncr s))]
      rfl

/-- A walk is exactly the application of its mutation list, which is a
pure function of the contig length, prior-operation count, cursor and
operation list. -/
lemma walkFold_eq_applyDeltas (ce : Nat) : ∀ (cigar : List (Char × Nat)) (k cur : Nat)
    (d : ContigData),
    (cigar.foldl (walkStep ce) (k, cur, d)).2.2 =
      applyDeltas (cigarDeltas ce k cur cigar) d := by
  intro cigar
  induction cigar with
  | nil => intro k cur d; rfl
  | cons op rest ih =>
      intro k cur d
      rw [List.foldl_cons]
      by_cases hm : opIsMatch op.1 = true
      · have hstep : walkStep ce (k, cur, d) op =
            (k + 1, cur + op.2,
              { d with coverage := addCoverageRange d.coverage cur op.2 }) := by
          simp [walkStep, hm]
        rw [hstep, ih (k + 1) (cur + op.2) _]
        have hdl : cigarDeltas ce k cur (op :: rest) =
            rangeDeltas cur op.2 ++ cigarDeltas ce (k + 1) (cur + op.2) rest := by
          simp [cigarDeltas, hm]
        rw [hdl, applyDeltas_append, ← setCov_applyDeltas]
      · by_cases hd : op.1 = 'D'
        · have hstep : walkStep ce (k, cur, d) op = (k + 1, cur + op.2, d) := by
            simp [walkStep, hm, hd, opIsMatch]
          have hdl : cigarDeltas ce k cur (op :: rest) =
              cigarDeltas ce (k + 1) (cur + op.2) rest := by
            simp [cigarDeltas, hm, hd, opIsMatch]
          rw [hstep, hdl, ih (k + 1) (cur + op.2) d]
        · by_cases hs : opIsClip op.1 = true
          · have hstep := walkStep_clip ce k cur d op.1 op.2 (by simpa using hm) hd hs
            rw [show ((op.1, op.2) : Char × Nat) = op from rfl] at hstep
            rw [hstep, ih (k + 1) cur _]
            have hdl : cigarDeltas ce k cur (op :: rest) =
                (if k + 1 = 1 then (if cur ≠ 0 then [Delta.clipIncr cur] else [])
                 else if cur ≠ ce then [Delta.clipIncr (cur - 1)] else []) ++
                cigarDeltas ce (k + 1) cur rest := by
              simp [cigarDeltas, hm, hd, hs]
            rw [hdl, applyDeltas_append]
            congr 1
            split_ifs <;> rfl
          · have hstep : walkStep ce (k, cur, d) op = (k + 1, cur, d) := by
              simp [walkStep, hm, hd, hs]
            have hdl : cigarDeltas ce k cur (op :: rest) =
                cigarDeltas ce (k + 1) cur rest := by
              simp [cigarDeltas, hm, hd, hs]
            rw [hstep, hdl, ih (k + 1) cur d]

/-- walkCigar through the mutation-list view. -/
lemma walkCigar_eq (ce pos : Nat) (cigar : List (Char × Nat)) (d : ContigData) :
    walkCigar ce pos cigar d = applyDeltas (cigarDeltas ce 0 pos cigar) d :=
  walkFold_eq_applyDeltas ce cigar 0 pos d

/-- processRead of a mapped record, unfolded. -/
lemma processRead_mapped (sizes : String → Nat) (d : String → Option ContigData)
    (r : ReadRec) (h : r.is_unmapped = false) :
    processRead sizes d r = Function.update d r.contig
      (some (walkCigar (sizes r.contig) r.pos r.cigar
        (match d r.contig with
         | some cd => cd
         | none => ContigData.new (sizes r.contig)))) := by
  simp [processRead, h]

/-- Processing two records commutes, whatever their contigs. -/
lemma processRead_comm (sizes : String → Nat) (d : String → Option ContigData)
    (r1 r2 : ReadRec) :
    processRead sizes (processRead sizes d r1) r2 =
      processRead sizes (processRead sizes d r2) r1 := by
  by_cases h1 : r1.is_unmapped = true
  · simp [processRead, h1]
  · by_cases h2 : r2.is_unmapped = true
    · simp [processRead, h2]
    · have h1' : r1.is_unmapped = false := by simpa using h1
      have h2' : r2.is_unmapped = false := by simpa using h2
      by_cases hc : r1.contig = r2.contig
      · rw [processRead_mapped sizes (processRead sizes d r1) r2 h2',
            processRead_mapped sizes (processRead sizes d r2) r1 h1',
            processRead_mapped sizes d r1 h1', processRead_mapped sizes d r2 h2', ← hc]
        simp only [Function.update_same, Function.update_idem]
        simp only [walkCigar_eq]
        rw [applyDeltas_comm]
      · funext x
        by_cases hx1 : x = r1.contig
        · subst hx1
          rw [processRead_mapped sizes (processRead sizes d r1) r2 h2',
              Function.update_noteq hc _ _,
              processRead_mapped sizes d r1 h1', Function.update_same,
              processRead_mapped sizes (processRead sizes d r2) r1 h1',
              Function.update_same,
              processRead_mapped sizes d r2 h2', Function.update_noteq hc _ _]
        · by_cases hx2 : x = r2.contig
          · subst hx2
            rw [processRead_mapped sizes (processRead sizes d r1) r2 h2',
                Function.update_same,
                processRead_mapped sizes d r1 h1',
                Function.update_noteq (Ne.symm hc) _ _,
                processRead_mapped sizes (processRead sizes d r2) r1 h1',
                Function.update_noteq (Ne.symm hc) _ _,
                processRead_mapped sizes d r2 h2', Function.update_same]
          · rw [processRead_mapped sizes (processRead sizes d r1) r2 h2',
                Function.update_noteq hx2 _ _,
                processRead_mapped sizes d r1 h1', Function.update_noteq hx1 _ _,
                processRead_mapped sizes (processRead sizes d r2) r1 h1',
                Function.update_noteq hx1 _ _,
                processRead_mapped sizes d r2 h2', Function.update_noteq hx2 _ _]

/-- C6: the final accumulator dictionary, hence every contig's coverage
array and clip-site map, is independent of the order in which the
record stream is processed: any permutation of the record list produces
the same state, because each record's effect is a pure additive
accumulation and effects of different records commute. -/
theorem C6_order_independence (sizes : String → Nat) (d : String → Option ContigData)
    {l₁ l₂ : List ReadRec} (h : l₁.Perm l₂) :
    processReads sizes d l₁ = processReads sizes d l₂ := by
  induction h generalizing d with
  | nil => rfl
  | cons x h ih =>
      simp only [processReads, List.foldl_cons]
      have := ih (processRead sizes d x)
      simpa [processReads] using this
  | swap x y l =>
      simp only [processReads, List.foldl_cons]
      rw [processRead_comm sizes d y x]
  | trans h1 h2 ih1 ih2 => rw [ih1 d, ih2 d]

/-- C6 witness: the two orders of a concrete two-record stream, one
record per contig, produce the same dictionary. -/
theorem C6_order_independence_witness :
    processReads (fun _ => 10) emptyDict
      [{ is_unmapped := false, contig := "a", pos := 0, cigar := [('M', 3), ('S', 2)] },
       { is_unmapped := false, contig := "b", pos := 1, cigar := [('M', 2)] }] =
    processReads (fun _ => 10) emptyDict
      [{ is_unmapped := false, contig := "b", pos := 1, cigar := [('M', 2)] },
       { is_unmapped := false, contig := "a", pos := 0, cigar := [('M', 3), ('S', 2)] }] :=
  C6_order_independence (fun _ => 10) emptyDict
    (List.Perm.swap
      ({ is_unmapped := false, contig := "b", pos := 1, cigar := [('M', 2)] } : ReadRec)
      ({ is_unmapped := false, contig := "a", pos := 0, cigar := [('M', 3), ('S', 2)] } : ReadRec)
      [])

end Anvio
